import Mathlib

/-!
Verification of the contact-assistant program (src/main.py): validated phone
and birthday fields, an insertion-ordered address book, and the
upcoming-birthdays query with its weekend-shift policy.

The embedding below translates the Python source shallowly:
  - Python `date` objects become the `Date` structure; `date.toordinal`,
    `date.weekday`, comparison, subtraction and `+ timedelta(days=n)` become
    `toOrdinal`, `weekday`, `dateLt`, `dateSub` and `addDays` on valid dates.
  - `datetime.strptime(value, "%d.%m.%Y")` becomes `strptimeDMY`: CPython
    compiles that format to the regular expression
    `(3[01]|[12]\d|0[1-9]|[1-9]) \. (1[0-2]|0[1-9]|[1-9]) \. (\d\d\d\d)`
    anchored on both ends, then builds the `date`, which additionally checks
    that the day exists in the month and that the year is at least 1.  Digits
    are modelled as the ASCII digits.
  - Exceptions become `Except String`; `date.today()` becomes an explicit
    `today` argument; mutation of the book becomes explicit state passing,
    with an in-place dict update modelled by `add_record` (replace the record
    stored under the same name, keeping its position, else append).
-/

set_option maxRecDepth 4096

namespace Assistant

/-! ## Calendar model (Python `datetime.date` on the proleptic Gregorian calendar) -/

/-- Gregorian leap-year rule, as used by Python's `datetime`. -/
def isLeap (y : Nat) : Bool :=
  y % 4 == 0 && (y % 100 != 0 || y % 400 == 0)

/-- Number of days in month `m` of year `y` (months numbered 1..12). -/
def daysInMonth (y m : Nat) : Nat :=
  if m == 2 then (if isLeap y then 29 else 28)
  else if m == 4 || m == 6 || m == 9 || m == 11 then 30
  else 31

/-- A calendar date as Python's `date` stores it: year, month, day. -/
structure Date where
  year : Nat
  month : Nat
  day : Nat
  deriving DecidableEq, Repr

/-- Python `date(y, m, d)` / `date.replace`: validates the components and
raises `ValueError` otherwise (year range 1..9999 as in `datetime`). -/
def mkDate (y m d : Nat) : Except String Date :=
  if y < 1 ∨ 9999 < y then Except.error "year is out of range"
  else if m < 1 ∨ 12 < m then Except.error "month must be in 1..12"
  else if d < 1 ∨ daysInMonth y m < d then Except.error "day is out of range for month"
  else Except.ok (Date.mk y m d)

/-- Days in all years strictly before year `y` (rata-die prefix sum). -/
def daysBeforeYear (y : Nat) : Nat :=
  365 * (y - 1) + (y - 1) / 4 + (y - 1) / 400 - (y - 1) / 100

/-- Days in the months of year `y` strictly before month `m`. -/
def daysBeforeMonth (y m : Nat) : Nat :=
  (List.range (m - 1)).foldl (fun acc i => acc + daysInMonth y (i + 1)) 0

/-- Python `date.toordinal`: day number with `0001-01-01` mapped to 1. -/
def toOrdinal (d : Date) : Nat :=
  daysBeforeYear d.year + daysBeforeMonth d.year d.month + d.day

/-- Python `date.weekday`: Monday = 0 .. Sunday = 6 (ordinal 1 is a Monday). -/
def weekday (d : Date) : Nat :=
  (toOrdinal d + 6) % 7

/-- Python `date` comparison: lexicographic on (year, month, day). -/
def dateLt (a b : Date) : Bool :=
  Nat.blt a.year b.year ||
    (a.year == b.year &&
      (Nat.blt a.month b.month || (a.month == b.month && Nat.blt a.day b.day)))

/-- Python `(a - b).days` for dates: difference of ordinals. -/
def dateSub (a b : Date) : Int :=
  (toOrdinal a : Int) - (toOrdinal b : Int)

/-- The successor day of a valid date. -/
def nextDay (d : Date) : Date :=
  if d.day < daysInMonth d.year d.month then Date.mk d.year d.month (d.day + 1)
  else if d.month < 12 then Date.mk d.year (d.month + 1) 1
  else Date.mk (d.year + 1) 1 1

/-- Python `d + timedelta(days = n)` on valid dates. -/
def addDays : Date → Nat → Date
  | d, 0 => d
  | d, n + 1 => nextDay (addDays d n)

/-! ## Digit strings and date formatting -/

/-- Numeric value of an ASCII digit character. -/
def digitVal (c : Char) : Nat := c.toNat - 48

/-- Value of a list of ASCII digit characters read in base 10 (Python `int`). -/
def natOfDigits (cs : List Char) : Nat :=
  cs.foldl (fun n c => n * 10 + digitVal c) 0

/-- Zero-pad a number to at least two digits (strftime `%d`, `%m`). -/
def pad2 (n : Nat) : String :=
  if n < 10 then "0" ++ toString n else toString n

/-- Zero-pad a number to at least four digits (strftime `%Y`). -/
def pad4 (n : Nat) : String :=
  if n < 10 then "000" ++ toString n
  else if n < 100 then "00" ++ toString n
  else if n < 1000 then "0" ++ toString n
  else toString n

/-- Python `d.strftime("%d.%m.%Y")`. -/
def formatDate (d : Date) : String :=
  pad2 d.day ++ "." ++ pad2 d.month ++ "." ++ pad4 d.year

/-! ## Field validators (`Phone.__init__`, `Birthday.__init__`) -/

/-- Split a character list at every dot, keeping empty pieces. -/
def splitOnDot : List Char → List (List Char)
  | [] => [[]]
  | c :: cs =>
    match splitOnDot cs with
    | [] => [[]]
    | h :: t => if c = '.' then [] :: h :: t else (c :: h) :: t

/-- Day field of the strptime regex: `3[01]|[12]\d|0[1-9]|[1-9]`, i.e. one
digit valuing 1..9 or two digits valuing 01..31. -/
def dayField (cs : List Char) : Bool :=
  cs.all Char.isDigit &&
    ((cs.length == 1 && decide (1 ≤ natOfDigits cs)) ||
     (cs.length == 2 && decide (1 ≤ natOfDigits cs) && decide (natOfDigits cs ≤ 31)))

/-- Month field of the strptime regex: `1[0-2]|0[1-9]|[1-9]`. -/
def monthField (cs : List Char) : Bool :=
  cs.all Char.isDigit &&
    ((cs.length == 1 && decide (1 ≤ natOfDigits cs)) ||
     (cs.length == 2 && decide (1 ≤ natOfDigits cs) && decide (natOfDigits cs ≤ 12)))

/-- Year field of the strptime regex: exactly four digits. -/
def yearField (cs : List Char) : Bool :=
  cs.all Char.isDigit && cs.length == 4

/-- Python `datetime.strptime(s, "%d.%m.%Y")`, returning the parsed
(day, month, year) on success: the anchored regex match followed by the
`date` constructor's calendar validation. -/
def strptimeDMY (s : String) : Option (Nat × Nat × Nat) :=
  match splitOnDot s.data with
  | [ds, ms, ys] =>
    if dayField ds && monthField ms && yearField ys then
      match mkDate (natOfDigits ys) (natOfDigits ms) (natOfDigits ds) with
      | Except.ok _ => some (natOfDigits ds, natOfDigits ms, natOfDigits ys)
      | Except.error _ => none
    else none
  | _ => none

/-- `Birthday.__init__` (src/main.py lines 42-49): strptime is run only as a
check; on success the original string is stored verbatim, on failure the
constructor raises `ValueError("Invalid date format. Use DD.MM.YYYY")`. -/
def parseBirthday (value : String) : Except String String :=
  match strptimeDMY value with
  | some _ => Except.ok value
  | none => Except.error "Invalid date format. Use DD.MM.YYYY"

/-- `Phone.__init__` (src/main.py lines 34-39): requires `value.isdigit()`
and `len(value) == 10`, storing the string unchanged. -/
def parsePhone (value : String) : Except String String :=
  if value.data.all Char.isDigit && value.data.length == 10 then Except.ok value
  else Except.error "Phone number must contain exactly 10 digits."

/-! ## Records and the address book -/

/-- `Record` (src/main.py lines 53-91): a name, the list of validated phone
strings in insertion order, and an optional validated birthday string. -/
structure Record where
  name : String
  phones : List String
  birthday : Option String
  deriving DecidableEq, Repr

/-- One element of the list returned by `get_upcoming_birthdays`: the dict
`{"name": ..., "birthday": ...}` holding the formatted greeting date. -/
structure Entry where
  name : String
  birthday : String
  deriving DecidableEq, Repr

/-- The `AddressBook` dict in insertion order: a list of records with
pairwise distinct names, each stored under its own name. -/
abbrev Book := List Record

/-- `AddressBook.find` (src/main.py line 99): `self.data.get(name)`. -/
def findBook (book : Book) (nm : String) : Option Record :=
  book.find? (fun r => r.name == nm)

/-- `AddressBook.add_record` (src/main.py line 96): dict assignment under
`record.name.value` — replace in place when the key exists, else append. -/
def add_record : Book → Record → Book
  | [], r => [r]
  | x :: xs, r => if x.name = r.name then r :: xs else x :: add_record xs r

/-- Removal of the record stored under `nm`, keeping every other record in
order (the effect of `del self.data[name]`). -/
def removeFirst : Book → String → Book
  | [], _ => []
  | x :: xs, nm => if x.name = nm then xs else x :: removeFirst xs nm

/-- `AddressBook.delete` (src/main.py lines 102-106): delete when present,
else raise `KeyError("Contact not found.")`. -/
def deleteRecord (book : Book) (nm : String) : Except String Book :=
  match findBook book nm with
  | some _ => Except.ok (removeFirst book nm)
  | none => Except.error "Contact not found."

/-- `Record.edit_phone` (src/main.py lines 70-76) acting on the phone list:
replace the first phone equal to `oldP` by a freshly validated phone built
from `newP`; validation failure propagates before any replacement; no match
raises `ValueError("Old phone not found.")`. -/
def edit_phone : List String → String → String → Except String (List String)
  | [], _, _ => Except.error "Old phone not found."
  | p :: ps, oldP, newP =>
    if p = oldP then
      match parsePhone newP with
      | Except.ok q => Except.ok (q :: ps)
      | Except.error e => Except.error e
    else
      match edit_phone ps oldP newP with
      | Except.ok ps2 => Except.ok (p :: ps2)
      | Except.error e => Except.error e

/-- `Record.edit_phone` at the record level. -/
def edit_phone_rec (r : Record) (oldP newP : String) : Except String Record :=
  match edit_phone r.phones oldP newP with
  | Except.ok ps => Except.ok (Record.mk r.name ps r.birthday)
  | Except.error e => Except.error e

/-- `Record.add_birthday` (src/main.py lines 85-86): `Birthday(birthday_str)`
is evaluated first, so the field is assigned only after a successful parse. -/
def add_birthday_rec (r : Record) (s : String) : Except String Record :=
  match parseBirthday s with
  | Except.ok v => Except.ok (Record.mk r.name r.phones (some v))
  | Except.error e => Except.error e

/-- The undecorated `add_birthday` handler (src/main.py lines 216-222):
missing arguments raise `IndexError`, an unknown name raises
`KeyError("Contact not found.")`, and `record.add_birthday` may raise
`ValueError`; the decorator turns each into a message. -/
def add_birthday_handler (args : List String) (book : Book) : Except String (String × Book) :=
  match args with
  | nm :: bstr :: _ =>
    match findBook book nm with
    | none => Except.error "Contact not found."
    | some r =>
      match add_birthday_rec r bstr with
      | Except.ok r2 => Except.ok ("Birthday added.", add_record book r2)
      | Except.error e => Except.error e
  | _ => Except.error "Not enough arguments."

/-- The decorated `add_contact` handler (src/main.py lines 171-183).  When the
name is new, the empty record is inserted into the book BEFORE the phone is
validated, so a phone `ValueError` (returned as a message by `input_error`)
still leaves the fresh empty record in the book. -/
def add_contact (args : List String) (book : Book) : String × Book :=
  match args with
  | nm :: phone :: _ =>
    match findBook book nm with
    | none =>
      let r := Record.mk nm [] none
      let book2 := add_record book r
      match parsePhone phone with
      | Except.ok p => ("Contact added.", add_record book2 (Record.mk nm [p] none))
      | Except.error e => (e, book2)
    | some r =>
      match parsePhone phone with
      | Except.ok p =>
        ("Contact updated.", add_record book (Record.mk r.name (r.phones ++ [p]) r.birthday))
      | Except.error e => (e, book)
  | _ => ("Not enough arguments.", book)

/-! ## The upcoming-birthdays query -/

/-- The weekend shift of src/main.py lines 136-139: Saturday (weekday 5) moves
forward two days, Sunday (weekday 6) one day, any other day is unchanged. -/
def weekendShift (t : Date) : Date :=
  if weekday t == 5 then addDays t 2
  else if weekday t == 6 then addDays t 1
  else t

/-- Lines 123-127 of src/main.py: `bday_date.replace(year=today.year)`,
moved to `today.year + 1` when that date has already passed this year.
Either `replace` can raise for a Feb 29 birthday in a non-leap year. -/
def thisYearCandidate (today : Date) (d m : Nat) : Except String Date :=
  match mkDate today.year m d with
  | Except.error e => Except.error e
  | Except.ok t => if dateLt t today then mkDate (today.year + 1) m d else Except.ok t

/-- The body of the `for record in self.data.values()` loop of
`get_upcoming_birthdays` (src/main.py lines 117-144) for a single record:
`Except.ok none` when the record is skipped, `Except.ok (some entry)` when it
is reported, `Except.error` when the date arithmetic raises. -/
def processRecord (today : Date) (days : Nat) (r : Record) : Except String (Option Entry) :=
  match r.birthday with
  | none => Except.ok none
  | some bstr =>
    match strptimeDMY bstr with
    | none => Except.error "time data does not match format"
    | some dmy =>
      match thisYearCandidate today dmy.1 dmy.2.1 with
      | Except.error e => Except.error e
      | Except.ok bty =>
        if 0 ≤ dateSub bty today ∧ dateSub bty today ≤ (days : Int) then
          Except.ok (some (Entry.mk r.name (formatDate (weekendShift bty))))
        else Except.ok none

/-- `AddressBook.get_upcoming_birthdays` (src/main.py lines 108-146), with
`date.today()` made an explicit `today` argument. -/
def get_upcoming_birthdays : Book → Date → Nat → Except String (List Entry)
  | [], _, _ => Except.ok []
  | r :: rs, today, days =>
    match processRecord today days r with
    | Except.error e => Except.error e
    | Except.ok oe =>
      match get_upcoming_birthdays rs today days with
      | Except.error e => Except.error e
      | Except.ok l =>
        Except.ok (match oe with | none => l | some ent => ent :: l)

/-- The `days` parameter of `get_upcoming_birthdays` defaults to 7
(src/main.py line 108; the `birthdays` handler calls it with the default). -/
def get_upcoming_birthdays_default (book : Book) (today : Date) : Except String (List Entry) :=
  get_upcoming_birthdays book today 7

/-! ## Specification-side definitions (taken from the words of the spec) -/

/-- Rejoin the pieces produced by `splitOnDot`, reinserting the dots. -/
def joinDots : List (List Char) → List Char
  | [] => []
  | [a] => a
  | a :: rest => a ++ '.' :: joinDots rest

/-- The pattern claim C3 asserts: exactly two-digit day, dot, two-digit
month, dot, four-digit year, all digits, naming a real calendar date. -/
def matchesDDMMYYYY (s : String) : Bool :=
  match s.data with
  | [d1, d2, p1, m1, m2, p2, y1, y2, y3, y4] =>
    d1.isDigit && d2.isDigit && p1 == '.' && m1.isDigit && m2.isDigit && p2 == '.' &&
    y1.isDigit && y2.isDigit && y3.isDigit && y4.isDigit &&
    (match mkDate (natOfDigits [y1, y2, y3, y4]) (natOfDigits [m1, m2]) (natOfDigits [d1, d2]) with
     | Except.ok _ => true
     | Except.error _ => false)
  | _ => false

/-- What `strptime("%d.%m.%Y")` actually accepts: a 1-or-2 digit day, a
1-or-2 digit month, a 4 digit year, dots between, naming a real calendar
date of year at least 1. -/
def lenientDMY (s : String) : Prop :=
  ∃ ds ms ys : List Char,
    s.data = ds ++ '.' :: (ms ++ '.' :: ys)
    ∧ (∀ c ∈ ds, '0' ≤ c ∧ c ≤ '9')
    ∧ (∀ c ∈ ms, '0' ≤ c ∧ c ≤ '9')
    ∧ (∀ c ∈ ys, '0' ≤ c ∧ c ≤ '9')
    ∧ (ds.length = 1 ∨ ds.length = 2)
    ∧ (ms.length = 1 ∨ ms.length = 2)
    ∧ ys.length = 4
    ∧ 1 ≤ natOfDigits ds
    ∧ 1 ≤ natOfDigits ms
    ∧ natOfDigits ms ≤ 12
    ∧ 1 ≤ natOfDigits ys
    ∧ natOfDigits ds ≤ daysInMonth (natOfDigits ys) (natOfDigits ms)

/-- Claim C1's `thisYearBirthday`: the birthday's (day, month) combined with
today's year, moved to next year when strictly earlier than today. -/
def specThisYearBirthday (today : Date) (d m : Nat) : Date :=
  if dateLt (Date.mk today.year m d) today then Date.mk (today.year + 1) m d
  else Date.mk today.year m d

/-- Claim C1's `deltaDays`: `thisYearBirthday - today` in whole days. -/
abbrev specDeltaDays (today : Date) (d m : Nat) : Int :=
  dateSub (specThisYearBirthday today d m) today

/-- Claim C1's window test: `0 <= deltaDays <= windowDays`, both inclusive. -/
abbrev specWindowCond (today : Date) (days : Nat) (d m : Nat) : Prop :=
  0 ≤ specDeltaDays today d m ∧ specDeltaDays today d m ≤ (days : Int)

/-- The record named `nm` is included in the result of the query. -/
def upcomingIncludes (book : Book) (today : Date) (days : Nat) (nm : String) : Prop :=
  ∃ l, get_upcoming_birthdays book today days = Except.ok l ∧ ∃ e ∈ l, Entry.name e = nm

/-- Claim C1 exactly as stated: every record with a birthday set is included
if and only if its `thisYearBirthday` falls inside the window. -/
def claimC1Statement (book : Book) (today : Date) (days : Nat) : Prop :=
  ∀ r ∈ book, ∀ bstr, Record.birthday r = some bstr →
    ∀ d m y, strptimeDMY bstr = some (d, m, y) →
      (upcomingIncludes book today days (Record.name r) ↔ specWindowCond today days d m)

/-! ## Helper lemmas about the book operations -/

theorem digit_char_iff (c : Char) : c.isDigit = true ↔ ('0' ≤ c ∧ c ≤ '9') := by
  simp [Char.isDigit, Char.le_def, ge_iff_le]

theorem findBook_some_name {book : Book} {nm : String} {r : Record}
    (h : findBook book nm = some r) : r.name = nm := by
  have h2 := List.find?_some h
  simpa using h2

theorem findBook_some_mem {book : Book} {nm : String} {r : Record}
    (h : findBook book nm = some r) : r ∈ book :=
  List.mem_of_find?_eq_some h

theorem findBook_cons_pos (x : Record) (xs : List Record) (nm : String) (h : x.name = nm) :
    findBook (x :: xs) nm = some x := by
  simp only [findBook]
  exact List.find?_cons_of_pos _ (by simpa using h)

theorem findBook_cons_neg (x : Record) (xs : List Record) (nm : String) (h : ¬ x.name = nm) :
    findBook (x :: xs) nm = findBook xs nm := by
  simp only [findBook]
  exact List.find?_cons_of_neg _ (by simpa using h)

theorem add_record_absent (book : Book) (r : Record) (h : findBook book r.name = none) :
    add_record book r = book ++ [r] := by
  induction book with
  | nil => rfl
  | cons x xs ih =>
    rw [findBook, List.find?] at h
    cases hx : (x.name == r.name) with
    | true => rw [hx] at h; cases h
    | false =>
      rw [hx] at h
      have hne : x.name ≠ r.name := by simpa using hx
      simp [add_record, hne, ih h]

theorem add_record_append_replace (book : Book) (r1 r2 : Record)
    (hname : r1.name = r2.name) (h : findBook book r1.name = none) :
    add_record (book ++ [r1]) r2 = book ++ [r2] := by
  induction book with
  | nil => simp [add_record, hname]
  | cons x xs ih =>
    rw [findBook, List.find?] at h
    cases hx : (x.name == r1.name) with
    | true => rw [hx] at h; cases h
    | false =>
      rw [hx] at h
      have hne : x.name ≠ r2.name := by
        have : x.name ≠ r1.name := by simpa using hx
        rw [← hname]; exact this
      simp [add_record, hne, ih h]

theorem findBook_add_record_self (book : Book) (r : Record) :
    findBook (add_record book r) r.name = some r := by
  induction book with
  | nil => simp [add_record, findBook, List.find?]
  | cons x xs ih =>
    by_cases hx : x.name = r.name
    · simp [add_record, hx, findBook, List.find?]
    · have hb : (x.name == r.name) = false := by simpa using hx
      simp only [add_record, hx, if_false, findBook, List.find?, hb]
      exact ih

theorem findBook_add_record_other (book : Book) (r : Record) (n : String) (h : n ≠ r.name) :
    findBook (add_record book r) n = findBook book n := by
  induction book with
  | nil =>
    have : (r.name == n) = false := by simpa using fun hh => h hh.symm
    simp [add_record, findBook, List.find?, this]
  | cons x xs ih =>
    by_cases hx : x.name = r.name
    · have hrn : (r.name == n) = false := by simpa using fun hh => h hh.symm
      have hxn : (x.name == n) = false := by
        have : x.name ≠ n := by rw [hx]; exact fun hh => h hh.symm
        simpa using this
      simp [add_record, hx, findBook, List.find?, hrn, hxn]
    · simp only [add_record, hx, if_false, findBook, List.find?]
      cases hxn : (x.name == n) with
      | true => rfl
      | false => exact ih

theorem add_record_length_existing (book : Book) (r r0 : Record)
    (h : findBook book r.name = some r0) :
    (add_record book r).length = book.length := by
  induction book with
  | nil => cases h
  | cons x xs ih =>
    rw [findBook, List.find?] at h
    cases hx : (x.name == r.name) with
    | true =>
      have : x.name = r.name := by simpa using hx
      simp [add_record, this]
    | false =>
      rw [hx] at h
      have hne : x.name ≠ r.name := by simpa using hx
      simp [add_record, hne, ih h]

theorem findBook_append_self (book : Book) (r : Record)
    (h : findBook book r.name = none) :
    findBook (book ++ [r]) r.name = some r := by
  induction book with
  | nil => simp [findBook, List.find?]
  | cons x xs ih =>
    rw [findBook, List.find?] at h
    cases hx : (x.name == r.name) with
    | true => rw [hx] at h; cases h
    | false =>
      rw [hx] at h
      simp only [findBook, List.cons_append, List.find?, hx]
      exact ih h

theorem removeFirst_find_none (book : Book) (nm : String)
    (hnd : (book.map Record.name).Nodup) :
    findBook (removeFirst book nm) nm = none := by
  induction book with
  | nil => rfl
  | cons x xs ih =>
    rw [List.map_cons, List.nodup_cons] at hnd
    by_cases hx : x.name = nm
    · simp only [removeFirst, hx, if_true]
      cases hfind : findBook xs nm with
      | none => rfl
      | some r =>
        exfalso
        apply hnd.1
        have h1 : r.name = nm := findBook_some_name hfind
        have h2 : r ∈ xs := findBook_some_mem hfind
        have h3 : r.name ∈ xs.map Record.name := List.mem_map_of_mem Record.name h2
        rw [h1, ← hx] at h3
        exact h3
    · simp only [removeFirst, hx, if_false]
      rw [findBook_cons_neg x (removeFirst xs nm) nm hx]
      exact ih hnd.2

theorem removeFirst_find_other (book : Book) (nm n : String) (hne : n ≠ nm) :
    findBook (removeFirst book nm) n = findBook book n := by
  induction book with
  | nil => rfl
  | cons x xs ih =>
    by_cases hx : x.name = nm
    · have hxn : ¬ x.name = n := by rw [hx]; exact fun hh => hne hh.symm
      simp only [removeFirst, hx, if_true]
      rw [findBook_cons_neg x xs n hxn]
    · simp only [removeFirst, hx, if_false]
      by_cases hxn : x.name = n
      · rw [findBook_cons_pos _ _ n hxn, findBook_cons_pos x xs n hxn]
      · rw [findBook_cons_neg _ _ n hxn, findBook_cons_neg x xs n hxn]
        exact ih

theorem removeFirst_length (book : Book) (nm : String) (r : Record)
    (h : findBook book nm = some r) :
    (removeFirst book nm).length + 1 = book.length := by
  induction book with
  | nil => cases h
  | cons x xs ih =>
    by_cases hx : x.name = nm
    · simp [removeFirst, hx]
    · have hb : (x.name == nm) = false := by simpa using hx
      rw [findBook, List.find?, hb] at h
      simp only [removeFirst, hx, if_false, List.length_cons]
      rw [ih h]

/-! ## Lemmas about `splitOnDot`, the regex fields and `mkDate` -/

theorem splitOnDot_ne_nil (cs : List Char) : splitOnDot cs ≠ [] := by
  induction cs with
  | nil => simp [splitOnDot]
  | cons c cs ih =>
    cases hsp : splitOnDot cs with
    | nil => simp [splitOnDot, hsp]
    | cons h t => by_cases hc : c = '.' <;> simp [splitOnDot, hsp, hc]

theorem joinDots_splitOnDot (cs : List Char) : joinDots (splitOnDot cs) = cs := by
  induction cs with
  | nil => rfl
  | cons c cs ih =>
    cases hsp : splitOnDot cs with
    | nil => exact absurd hsp (splitOnDot_ne_nil cs)
    | cons h t =>
      rw [hsp] at ih
      by_cases hc : c = '.'
      · subst hc
        simp only [splitOnDot, hsp, if_pos rfl]
        cases t with
        | nil => simp [joinDots] at ih ⊢; exact ih
        | cons h2 t2 => simp [joinDots] at ih ⊢; exact ih
      · simp only [splitOnDot, hsp, if_neg hc]
        cases t with
        | nil =>
          simp [joinDots] at ih ⊢
          exact ih
        | cons h2 t2 =>
          simp [joinDots] at ih ⊢
          rw [← ih]

theorem splitOnDot_parts (cs : List Char) : ∀ part ∈ splitOnDot cs, ('.' : Char) ∉ part := by
  induction cs with
  | nil =>
    intro part hp
    simp [splitOnDot] at hp
    subst hp; simp
  | cons c cs ih =>
    intro part hp
    cases hsp : splitOnDot cs with
    | nil => exact absurd hsp (splitOnDot_ne_nil cs)
    | cons h t =>
      simp only [splitOnDot, hsp] at hp
      by_cases hc : c = '.'
      · rw [if_pos hc] at hp
        rcases List.mem_cons.mp hp with rfl | hp2
        · simp
        · exact ih part (by rw [hsp]; exact hp2)
      · rw [if_neg hc] at hp
        rcases List.mem_cons.mp hp with rfl | hp2
        · intro hmem
          rcases List.mem_cons.mp hmem with h1 | h1
          · exact hc h1.symm
          · exact ih h (by rw [hsp]; exact List.mem_cons_self _ _) h1
        · exact ih part (by rw [hsp]; exact List.mem_cons_of_mem _ hp2)

theorem splitOnDot_no_dot (cs : List Char) (h : ('.' : Char) ∉ cs) : splitOnDot cs = [cs] := by
  induction cs with
  | nil => rfl
  | cons c cs ih =>
    have hc : ¬ c = '.' := fun hh => h (by rw [hh]; exact List.mem_cons_self _ _)
    have h2 : ('.' : Char) ∉ cs := fun hh => h (List.mem_cons_of_mem _ hh)
    simp [splitOnDot, ih h2, hc]

theorem splitOnDot_append (a b : List Char) (h : ('.' : Char) ∉ a) :
    splitOnDot (a ++ '.' :: b) = a :: splitOnDot b := by
  induction a with
  | nil =>
    cases hsp : splitOnDot b with
    | nil => exact absurd hsp (splitOnDot_ne_nil b)
    | cons hh t => simp [splitOnDot, hsp]
  | cons c a ih =>
    have hc : ¬ c = '.' := fun hh => h (by rw [hh]; exact List.mem_cons_self _ _)
    have h2 : ('.' : Char) ∉ a := fun hh => h (List.mem_cons_of_mem _ hh)
    simp [splitOnDot, ih h2, hc]

theorem strptime_parts {s : String} {ds ms ys : List Char}
    (hsp : splitOnDot s.data = [ds, ms, ys]) :
    s.data = ds ++ '.' :: (ms ++ '.' :: ys) := by
  have hjoin := joinDots_splitOnDot s.data
  rw [hsp] at hjoin
  simpa [joinDots] using hjoin.symm

theorem no_dot_of_digits {cs : List Char} (h : ∀ c ∈ cs, '0' ≤ c ∧ c ≤ '9') :
    ('.' : Char) ∉ cs := by
  intro hmem
  exact absurd ((h _ hmem).1) (by decide)

theorem digitVal_le_9 {c : Char} (h : c ≤ '9') : digitVal c ≤ 9 := by
  have h1 : c.val ≤ UInt32.ofNat 57 := Char.le_def.mp h
  have h2 : c.val.toNat ≤ 57 := UInt32.toNat_le_of_le (by decide) h1
  unfold digitVal Char.toNat
  omega

theorem natOfDigits_foldl_lt (cs : List Char) (hds : ∀ c ∈ cs, c ≤ '9') :
    ∀ acc : Nat, List.foldl (fun n c => n * 10 + digitVal c) acc cs < (acc + 1) * 10 ^ cs.length := by
  induction cs with
  | nil => intro acc; simp
  | cons c cs ih =>
    intro acc
    have hc : digitVal c ≤ 9 := digitVal_le_9 (hds c (List.mem_cons_self _ _))
    have hcs : ∀ x ∈ cs, x ≤ '9' := fun x hx => hds x (List.mem_cons_of_mem _ hx)
    simp only [List.foldl_cons, List.length_cons]
    calc List.foldl (fun n c => n * 10 + digitVal c) (acc * 10 + digitVal c) cs
        < (acc * 10 + digitVal c + 1) * 10 ^ cs.length := ih hcs (acc * 10 + digitVal c)
      _ ≤ ((acc + 1) * 10) * 10 ^ cs.length := Nat.mul_le_mul_right _ (by omega)
      _ = (acc + 1) * 10 ^ (cs.length + 1) := by ring

theorem natOfDigits_lt (cs : List Char) (h : ∀ c ∈ cs, '0' ≤ c ∧ c ≤ '9') :
    natOfDigits cs < 10 ^ cs.length := by
  have hh := natOfDigits_foldl_lt cs (fun c hc => (h c hc).2) 0
  simpa [natOfDigits] using hh

theorem daysInMonth_le_31 (y m : Nat) : daysInMonth y m ≤ 31 := by
  unfold daysInMonth
  split_ifs <;> omega

theorem dayField_iff (cs : List Char) :
    dayField cs = true ↔
      ((∀ c ∈ cs, '0' ≤ c ∧ c ≤ '9') ∧
        ((cs.length = 1 ∧ 1 ≤ natOfDigits cs) ∨
          (cs.length = 2 ∧ 1 ≤ natOfDigits cs ∧ natOfDigits cs ≤ 31))) := by
  unfold dayField
  simp only [Bool.and_eq_true, Bool.or_eq_true, List.all_eq_true, beq_iff_eq, decide_eq_true_eq]
  constructor
  · rintro ⟨hall, hcase⟩
    refine ⟨fun c hc => (digit_char_iff c).mp (hall c hc), ?_⟩
    rcases hcase with ⟨h1, h2⟩ | ⟨⟨h1, h2⟩, h3⟩
    · exact Or.inl ⟨h1, h2⟩
    · exact Or.inr ⟨h1, h2, h3⟩
  · rintro ⟨hall, hcase⟩
    refine ⟨fun c hc => (digit_char_iff c).mpr (hall c hc), ?_⟩
    rcases hcase with ⟨h1, h2⟩ | ⟨h1, h2, h3⟩
    · exact Or.inl ⟨h1, h2⟩
    · exact Or.inr ⟨⟨h1, h2⟩, h3⟩

theorem monthField_iff (cs : List Char) :
    monthField cs = true ↔
      ((∀ c ∈ cs, '0' ≤ c ∧ c ≤ '9') ∧
        ((cs.length = 1 ∧ 1 ≤ natOfDigits cs) ∨
          (cs.length = 2 ∧ 1 ≤ natOfDigits cs ∧ natOfDigits cs ≤ 12))) := by
  unfold monthField
  simp only [Bool.and_eq_true, Bool.or_eq_true, List.all_eq_true, beq_iff_eq, decide_eq_true_eq]
  constructor
  · rintro ⟨hall, hcase⟩
    refine ⟨fun c hc => (digit_char_iff c).mp (hall c hc), ?_⟩
    rcases hcase with ⟨h1, h2⟩ | ⟨⟨h1, h2⟩, h3⟩
    · exact Or.inl ⟨h1, h2⟩
    · exact Or.inr ⟨h1, h2, h3⟩
  · rintro ⟨hall, hcase⟩
    refine ⟨fun c hc => (digit_char_iff c).mpr (hall c hc), ?_⟩
    rcases hcase with ⟨h1, h2⟩ | ⟨h1, h2, h3⟩
    · exact Or.inl ⟨h1, h2⟩
    · exact Or.inr ⟨⟨h1, h2⟩, h3⟩

theorem yearField_iff (cs : List Char) :
    yearField cs = true ↔ ((∀ c ∈ cs, '0' ≤ c ∧ c ≤ '9') ∧ cs.length = 4) := by
  unfold yearField
  simp only [Bool.and_eq_true, List.all_eq_true, beq_iff_eq]
  constructor
  · rintro ⟨hall, hlen⟩
    exact ⟨fun c hc => (digit_char_iff c).mp (hall c hc), hlen⟩
  · rintro ⟨hall, hlen⟩
    exact ⟨fun c hc => (digit_char_iff c).mpr (hall c hc), hlen⟩

theorem mkDate_ok_iff (y m d : Nat) (t : Date) :
    mkDate y m d = Except.ok t ↔
      (1 ≤ y ∧ y ≤ 9999 ∧ 1 ≤ m ∧ m ≤ 12 ∧ 1 ≤ d ∧ d ≤ daysInMonth y m ∧ t = Date.mk y m d) := by
  unfold mkDate
  split_ifs with h1 h2 h3
  · constructor
    · intro hh; simp at hh
    · rintro ⟨hy1, hy2, _⟩; omega
  · constructor
    · intro hh; simp at hh
    · rintro ⟨hy1, hy2, hm1, hm2, _⟩; omega
  · constructor
    · intro hh; simp at hh
    · rintro ⟨hy1, hy2, hm1, hm2, hd1, hd2, _⟩; omega
  · constructor
    · intro hh
      injection hh with hh
      push_neg at h1 h2 h3
      exact ⟨h1.1, h1.2, h2.1, h2.2, h3.1, h3.2, hh.symm⟩
    · rintro ⟨_, _, _, _, _, _, rfl⟩; rfl

/-! ## Claim C3: birthday validation (the exact-pattern claim fails) -/

theorem strptimeDMY_some_iff (s : String) :
    (∃ dmy, strptimeDMY s = some dmy) ↔ lenientDMY s := by
  constructor
  · rintro ⟨dmy, hdmy⟩
    unfold strptimeDMY at hdmy
    split at hdmy
    case h_2 => exact Option.noConfusion hdmy
    case h_1 ds ms ys heq =>
      by_cases hfields : (dayField ds && monthField ms && yearField ys) = true
      · rw [if_pos hfields] at hdmy
        cases hmk : mkDate (natOfDigits ys) (natOfDigits ms) (natOfDigits ds) with
        | error e => rw [hmk] at hdmy; exact Option.noConfusion hdmy
        | ok t =>
          obtain ⟨hy1, hy2, hm1, hm2, hd1, hd2, _⟩ := (mkDate_ok_iff _ _ _ _).mp hmk
          rw [Bool.and_eq_true, Bool.and_eq_true] at hfields
          obtain ⟨⟨hdf, hmf⟩, hyf⟩ := hfields
          obtain ⟨hdigd, hcased⟩ := (dayField_iff ds).mp hdf
          obtain ⟨hdigm, hcasem⟩ := (monthField_iff ms).mp hmf
          obtain ⟨hdigy, hleny⟩ := (yearField_iff ys).mp hyf
          exact ⟨ds, ms, ys, strptime_parts heq, hdigd, hdigm, hdigy,
            hcased.imp And.left And.left, hcasem.imp And.left And.left, hleny,
            hd1, hm1, hm2, hy1, hd2⟩
      · rw [if_neg hfields] at hdmy
        exact Option.noConfusion hdmy
  · rintro ⟨ds, ms, ys, heq, hdigd, hdigm, hdigy, hlend, hlenm, hleny, hD1, hM1, hM12, hY1, hDd⟩
    have hnd : ('.' : Char) ∉ ds := no_dot_of_digits hdigd
    have hnm : ('.' : Char) ∉ ms := no_dot_of_digits hdigm
    have hny : ('.' : Char) ∉ ys := no_dot_of_digits hdigy
    have hsp : splitOnDot s.data = [ds, ms, ys] := by
      rw [heq, splitOnDot_append ds _ hnd, splitOnDot_append ms _ hnm,
        splitOnDot_no_dot ys hny]
    have hY2 : natOfDigits ys ≤ 9999 := by
      have hlt := natOfDigits_lt ys hdigy
      rw [hleny] at hlt
      omega
    have hmk : mkDate (natOfDigits ys) (natOfDigits ms) (natOfDigits ds)
        = Except.ok (Date.mk (natOfDigits ys) (natOfDigits ms) (natOfDigits ds)) :=
      (mkDate_ok_iff _ _ _ _).mpr ⟨hY1, hY2, hM1, hM12, hD1, hDd, rfl⟩
    have hfields : (dayField ds && monthField ms && yearField ys) = true := by
      rw [Bool.and_eq_true, Bool.and_eq_true]
      refine ⟨⟨(dayField_iff ds).mpr ⟨hdigd, ?_⟩, (monthField_iff ms).mpr ⟨hdigm, ?_⟩⟩,
        (yearField_iff ys).mpr ⟨hdigy, hleny⟩⟩
      · rcases hlend with h1 | h1
        · exact Or.inl ⟨h1, hD1⟩
        · exact Or.inr ⟨h1, hD1, le_trans hDd (daysInMonth_le_31 _ _)⟩
      · rcases hlenm with h1 | h1
        · exact Or.inl ⟨h1, hM1⟩
        · exact Or.inr ⟨h1, hM1, hM12⟩
    refine ⟨(natOfDigits ds, natOfDigits ms, natOfDigits ys), ?_⟩
    unfold strptimeDMY
    simp only [hsp]
    rw [if_pos hfields, hmk]

/-- Claim C3 counterexample: the code accepts "5.6.2024", which does not
match the exact DD.MM.YYYY pattern (two-digit day, two-digit month), so
"succeeds if and only if the input matches DD.MM.YYYY" is false. -/
theorem parseBirthday_exact_counterexample :
    ¬ (∀ raw : String, (∃ v, parseBirthday raw = Except.ok v) ↔ matchesDDMMYYYY raw = true) := by
  intro h
  have h1 := (h "5.6.2024").mp ⟨"5.6.2024", rfl⟩
  exact absurd h1 (by decide)

/-- Claim C3 amended: `parseBirthday` succeeds exactly on strings accepted by
the strptime pattern `%d.%m.%Y` — a 1-or-2 digit day, dot, 1-or-2 digit
month, dot, exactly four digit year, naming a real calendar date with year
at least 1 — storing the raw string verbatim on success and failing with
`ValidationError("Invalid date format. Use DD.MM.YYYY")` otherwise. -/
theorem parseBirthday_spec (raw : String) :
    ((∃ v, parseBirthday raw = Except.ok v) ↔ lenientDMY raw)
    ∧ (∀ v, parseBirthday raw = Except.ok v → v = raw)
    ∧ (¬ lenientDMY raw →
        parseBirthday raw = Except.error "Invalid date format. Use DD.MM.YYYY") := by
  have hiff := strptimeDMY_some_iff raw
  refine ⟨?_, ?_, ?_⟩
  · rw [← hiff]
    constructor
    · rintro ⟨v, hv⟩
      unfold parseBirthday at hv
      cases hst : strptimeDMY raw with
      | none => rw [hst] at hv; exact Except.noConfusion hv
      | some dmy => exact ⟨dmy, rfl⟩
    · rintro ⟨dmy, hdmy⟩
      refine ⟨raw, ?_⟩
      unfold parseBirthday
      rw [hdmy]
  · intro v hv
    unfold parseBirthday at hv
    cases hst : strptimeDMY raw with
    | none => rw [hst] at hv; exact Except.noConfusion hv
    | some dmy => rw [hst] at hv; cases hv; rfl
  · intro hnl
    have hst : strptimeDMY raw = none := by
      cases hst : strptimeDMY raw with
      | none => rfl
      | some dmy => exact absurd (hiff.mp ⟨dmy, hst⟩) hnl
    unfold parseBirthday
    rw [hst]

/-- Witness for the amended C3: a string in the wrong format fails with the
exact message, via the theorem applied at a concrete input. -/
theorem parseBirthday_spec_witness :
    parseBirthday "2024-02-31" = Except.error "Invalid date format. Use DD.MM.YYYY" :=
  (parseBirthday_spec "2024-02-31").2.2 (by
    rintro ⟨ds, ms, ys, heq, -⟩
    have hmem : ('.' : Char) ∈ ds ++ '.' :: (ms ++ '.' :: ys) := by simp
    rw [← heq] at hmem
    revert hmem
    decide)

/-! ## Claim C4: phone validation -/

/-- Claim C4: `parsePhone` succeeds if and only if the input consists solely
of decimal digit characters and has length exactly 10; on success the stored
digit string equals the input byte for byte, and on failure it fails with
the message "Phone number must contain exactly 10 digits.". -/
theorem parsePhone_spec (raw : String) :
    ((∃ v, parsePhone raw = Except.ok v) ↔
      (raw.data.length = 10 ∧ ∀ c ∈ raw.data, '0' ≤ c ∧ c ≤ '9'))
    ∧ (∀ v, parsePhone raw = Except.ok v → v = raw)
    ∧ ((¬ (raw.data.length = 10 ∧ ∀ c ∈ raw.data, '0' ≤ c ∧ c ≤ '9')) →
      parsePhone raw = Except.error "Phone number must contain exactly 10 digits.") := by
  have hcond : (raw.data.all Char.isDigit && raw.data.length == 10) = true ↔
      (raw.data.length = 10 ∧ ∀ c ∈ raw.data, '0' ≤ c ∧ c ≤ '9') := by
    rw [Bool.and_eq_true, List.all_eq_true, beq_iff_eq]
    constructor
    · rintro ⟨hall, hlen⟩
      exact ⟨hlen, fun c hc => (digit_char_iff c).mp (hall c hc)⟩
    · rintro ⟨hlen, hall⟩
      exact ⟨fun c hc => (digit_char_iff c).mpr (hall c hc), hlen⟩
  by_cases h : (raw.data.all Char.isDigit && raw.data.length == 10) = true
  · refine ⟨?_, ?_, ?_⟩
    · rw [← hcond]
      exact ⟨fun _ => h, fun _ => ⟨raw, by rw [parsePhone, if_pos h]⟩⟩
    · intro v hv
      rw [parsePhone, if_pos h] at hv
      cases hv; rfl
    · intro hnot; exact absurd (hcond.mp h) hnot
  · refine ⟨?_, ?_, ?_⟩
    · rw [← hcond]
      constructor
      · rintro ⟨v, hv⟩
        rw [parsePhone, if_neg h] at hv
        cases hv
      · intro hh; exact absurd hh h
    · intro v hv
      rw [parsePhone, if_neg h] at hv
      cases hv
    · intro _; rw [parsePhone, if_neg h]

/-- Witness for C4 at concrete inputs: a valid 10-digit string succeeds and a
short string fails with the exact message. -/
theorem parsePhone_spec_witness :
    parsePhone "0501234567" = Except.ok "0501234567"
    ∧ parsePhone "123" = Except.error "Phone number must contain exactly 10 digits." := by
  constructor
  · have h := ((parsePhone_spec "0501234567").1.mpr (by decide))
    obtain ⟨v, hv⟩ := h
    have := (parsePhone_spec "0501234567").2.1 v hv
    rw [this] at hv
    exact hv
  · exact (parsePhone_spec "123").2.2 (by decide)

/-! ## Claim C6: phone editing -/

/-- Replacement case of `edit_phone` at the list level. -/
theorem edit_phone_replace (pre post : List String) (oldP newP q : String)
    (hpre : oldP ∉ pre) (hq : parsePhone newP = Except.ok q) :
    edit_phone (pre ++ oldP :: post) oldP newP = Except.ok (pre ++ q :: post) := by
  induction pre with
  | nil => simp [edit_phone, hq]
  | cons p ps ih =>
    have hne : p ≠ oldP := fun h => hpre (by rw [h]; exact List.mem_cons_self _ _)
    have h2 : oldP ∉ ps := fun h => hpre (List.mem_cons_of_mem _ h)
    have hne2 : ¬ (p = oldP) := hne
    simp [edit_phone, hne2, ih h2]

/-- Missing-phone case of `edit_phone` at the list level. -/
theorem edit_phone_not_found (phones : List String) (oldP newP : String)
    (h : oldP ∉ phones) :
    edit_phone phones oldP newP = Except.error "Old phone not found." := by
  induction phones with
  | nil => rfl
  | cons p ps ih =>
    have hne : ¬ (p = oldP) := fun hh => h (by rw [hh]; exact List.mem_cons_self _ _)
    have h2 : oldP ∉ ps := fun hh => h (List.mem_cons_of_mem _ hh)
    simp [edit_phone, hne, ih h2]

/-- Invalid-new-phone case of `edit_phone` at the list level. -/
theorem edit_phone_bad_new (phones : List String) (oldP newP e : String)
    (hmem : oldP ∈ phones) (he : parsePhone newP = Except.error e) :
    edit_phone phones oldP newP = Except.error e := by
  induction phones with
  | nil => cases hmem
  | cons p ps ih =>
    by_cases hp : p = oldP
    · simp [edit_phone, hp, he]
    · have : oldP ∈ ps := by
        rcases List.mem_cons.mp hmem with h1 | h1
        · exact absurd h1.symm hp
        · exact h1
      simp [edit_phone, hp, ih this]

/-- Claim C6: `edit_phone` replaces the first phone equal to the old string in
place with a newly validated phone; when the old phone is absent it fails with
"Old phone not found." leaving the phones unchanged; when the new phone is
invalid the validation error propagates and no replacement happens. -/
theorem edit_phone_spec :
    (∀ (r : Record) (pre post : List String) (oldP newP q : String),
      r.phones = pre ++ oldP :: post → oldP ∉ pre → parsePhone newP = Except.ok q →
      edit_phone_rec r oldP newP = Except.ok (Record.mk r.name (pre ++ q :: post) r.birthday))
    ∧ (∀ (r : Record) (oldP newP : String), oldP ∉ r.phones →
      edit_phone_rec r oldP newP = Except.error "Old phone not found.")
    ∧ (∀ (r : Record) (oldP newP e : String), oldP ∈ r.phones →
      parsePhone newP = Except.error e →
      edit_phone_rec r oldP newP = Except.error e) := by
  refine ⟨?_, ?_, ?_⟩
  · intro r pre post oldP newP q hph hpre hq
    rw [edit_phone_rec, hph, edit_phone_replace pre post oldP newP q hpre hq]
  · intro r oldP newP h
    rw [edit_phone_rec, edit_phone_not_found r.phones oldP newP h]
  · intro r oldP newP e hmem he
    rw [edit_phone_rec, edit_phone_bad_new r.phones oldP newP e hmem he]

/-- Witness for C6 at the concrete scenario of the spec: a record holding
["1111111111"] edits to ["2222222222"], and editing an absent phone fails. -/
theorem edit_phone_spec_witness :
    edit_phone_rec (Record.mk "X" ["1111111111"] none) "1111111111" "2222222222"
        = Except.ok (Record.mk "X" ["2222222222"] none)
    ∧ edit_phone_rec (Record.mk "X" ["1111111111"] none) "9999999999" "3333333333"
        = Except.error "Old phone not found." :=
  ⟨edit_phone_spec.1 (Record.mk "X" ["1111111111"] none) [] [] "1111111111" "2222222222"
      "2222222222" rfl (by decide) rfl,
    edit_phone_spec.2.1 (Record.mk "X" ["1111111111"] none) "9999999999" "3333333333"
      (by decide)⟩

/-! ## Claim C8: deletion -/

/-- Claim C8: `delete` removes the record stored under the name when present,
keeping every other record; when the name is absent it fails with
"Contact not found." and the book is unchanged. -/
theorem delete_spec (book : Book) (nm : String) :
    (findBook book nm = none → deleteRecord book nm = Except.error "Contact not found.")
    ∧ (∀ r, findBook book nm = some r →
        deleteRecord book nm = Except.ok (removeFirst book nm)
        ∧ ((book.map Record.name).Nodup → findBook (removeFirst book nm) nm = none)
        ∧ (∀ n, n ≠ nm → findBook (removeFirst book nm) n = findBook book n)
        ∧ (removeFirst book nm).length + 1 = book.length) := by
  constructor
  · intro h; rw [deleteRecord, h]
  · intro r h
    exact ⟨by rw [deleteRecord, h],
      fun hnd => removeFirst_find_none book nm hnd,
      fun n hn => removeFirst_find_other book nm n hn,
      removeFirst_length book nm r h⟩

/-- Witness for C8: deleting from an empty book fails with the message, and
deleting the only record empties the book. -/
theorem delete_spec_witness :
    deleteRecord ([] : Book) "Bob" = Except.error "Contact not found."
    ∧ deleteRecord [Record.mk "Alice" [] none] "Alice" = Except.ok [] :=
  ⟨(delete_spec [] "Bob").1 rfl,
    ((delete_spec [Record.mk "Alice" [] none] "Alice").2 (Record.mk "Alice" [] none) rfl).1⟩

/-! ## Claim C5: the upsert behavior of `add_contact` -/

/-- Claim C5: with a valid phone, `add_contact` on an absent name appends
exactly one new record holding that name and phone and reports creation; on a
present name it appends the phone to the existing record in place (no second
record) and reports update; hence two upserts with the same name leave a
single record holding both phones in order. -/
theorem add_contact_upsert (book : Book) (nm phone q : String)
    (hq : parsePhone phone = Except.ok q) :
    (findBook book nm = none →
      add_contact [nm, phone] book = ("Contact added.", book ++ [Record.mk nm [q] none]))
    ∧ (∀ r, findBook book nm = some r →
      add_contact [nm, phone] book
          = ("Contact updated.", add_record book (Record.mk r.name (r.phones ++ [q]) r.birthday))
      ∧ findBook (add_record book (Record.mk r.name (r.phones ++ [q]) r.birthday)) nm
          = some (Record.mk r.name (r.phones ++ [q]) r.birthday)
      ∧ (add_record book (Record.mk r.name (r.phones ++ [q]) r.birthday)).length = book.length
      ∧ (∀ n, n ≠ nm →
          findBook (add_record book (Record.mk r.name (r.phones ++ [q]) r.birthday)) n
            = findBook book n))
    ∧ (add_contact ["Alice", "1234567890"] []).1 = "Contact added."
    ∧ add_contact ["Alice", "0987654321"] (add_contact ["Alice", "1234567890"] []).2
        = ("Contact updated.", [Record.mk "Alice" ["1234567890", "0987654321"] none]) := by
  refine ⟨?_, ?_, rfl, by decide⟩
  · intro h
    have h1 : add_record book (Record.mk nm [] none) = book ++ [Record.mk nm [] none] :=
      add_record_absent book (Record.mk nm [] none) h
    have h2 : add_record (book ++ [Record.mk nm [] none]) (Record.mk nm [q] none)
        = book ++ [Record.mk nm [q] none] :=
      add_record_append_replace book (Record.mk nm [] none) (Record.mk nm [q] none) rfl h
    simp only [add_contact, h, hq, h1, h2]
  · intro r h
    have hname : r.name = nm := findBook_some_name h
    subst hname
    refine ⟨by simp only [add_contact, h, hq], ?_, ?_, ?_⟩
    · exact findBook_add_record_self book (Record.mk r.name (r.phones ++ [q]) r.birthday)
    · exact add_record_length_existing book (Record.mk r.name (r.phones ++ [q]) r.birthday) r h
    · intro n hn
      exact findBook_add_record_other book (Record.mk r.name (r.phones ++ [q]) r.birthday) n hn

/-- Witness for C5: the spec scenario on a fresh book with name "Alice". -/
theorem add_contact_upsert_witness :
    add_contact ["Alice", "1234567890"] []
      = ("Contact added.", [Record.mk "Alice" ["1234567890"] none]) :=
  (add_contact_upsert [] "Alice" "1234567890" "1234567890" rfl).1 rfl

/-! ## Claim C9: invalid phone still inserts an empty record -/

/-- Claim C9: when the name is absent and the phone fails validation,
`add_contact` reports the validation error but the book has already been
mutated: it now holds a record under that name with an empty phone list. -/
theorem add_contact_invalid_phone (book : Book) (nm phone e : String)
    (habs : findBook book nm = none) (hbad : parsePhone phone = Except.error e) :
    add_contact [nm, phone] book = (e, book ++ [Record.mk nm [] none])
    ∧ findBook (book ++ [Record.mk nm [] none]) nm = some (Record.mk nm [] none) := by
  constructor
  · have h1 : add_record book (Record.mk nm [] none) = book ++ [Record.mk nm [] none] :=
      add_record_absent book (Record.mk nm [] none) habs
    simp only [add_contact, habs, hbad, h1]
  · exact findBook_append_self book (Record.mk nm [] none) habs

/-- Witness for C9: an invalid phone on a fresh book leaves an empty record. -/
theorem add_contact_invalid_phone_witness :
    add_contact ["Alice", "123"] []
        = ("Phone number must contain exactly 10 digits.", [Record.mk "Alice" [] none])
    ∧ findBook [Record.mk "Alice" [] none] "Alice" = some (Record.mk "Alice" [] none) :=
  add_contact_invalid_phone [] "Alice" "123" "Phone number must contain exactly 10 digits."
    rfl rfl

/-! ## Claim C10: birthday assignment only after successful validation -/

/-- Claim C10: a failing birthday string makes the handler propagate the
validation error with no successor book (the stored record, set or unset,
is untouched), while a successful parse assigns the new birthday. -/
theorem add_birthday_spec (book : Book) (nm s : String) (r : Record)
    (hf : findBook book nm = some r) :
    (∀ e, parseBirthday s = Except.error e →
        add_birthday_handler [nm, s] book = Except.error e)
    ∧ (∀ v, parseBirthday s = Except.ok v →
        add_birthday_handler [nm, s] book
          = Except.ok ("Birthday added.", add_record book (Record.mk r.name r.phones (some v)))) := by
  constructor
  · intro e he; simp [add_birthday_handler, add_birthday_rec, hf, he]
  · intro v hv; simp [add_birthday_handler, add_birthday_rec, hf, hv]

/-- Witness for C10: an invalid calendar date fails with the exact message on
a record whose birthday was already set, and on one with no birthday. -/
theorem add_birthday_spec_witness :
    add_birthday_handler ["Ann", "31.02.2024"] [Record.mk "Ann" [] (some "01.01.2000")]
        = Except.error "Invalid date format. Use DD.MM.YYYY"
    ∧ add_birthday_handler ["Bob", "31.02.2024"] [Record.mk "Bob" [] none]
        = Except.error "Invalid date format. Use DD.MM.YYYY" :=
  ⟨(add_birthday_spec [Record.mk "Ann" [] (some "01.01.2000")] "Ann" "31.02.2024"
      (Record.mk "Ann" [] (some "01.01.2000")) rfl).1 "Invalid date format. Use DD.MM.YYYY" rfl,
    (add_birthday_spec [Record.mk "Bob" [] none] "Bob" "31.02.2024"
      (Record.mk "Bob" [] none) rfl).1 "Invalid date format. Use DD.MM.YYYY" rfl⟩

/-! ## Lemmas about the upcoming-birthdays loop -/

theorem thisYearCandidate_ok {today : Date} {d m : Nat} {bty : Date}
    (h : thisYearCandidate today d m = Except.ok bty) :
    bty = specThisYearBirthday today d m := by
  unfold thisYearCandidate at h
  cases hmk : mkDate today.year m d with
  | error e => rw [hmk] at h; exact Except.noConfusion h
  | ok t =>
    have ht : t = Date.mk today.year m d := ((mkDate_ok_iff _ _ _ _).mp hmk).2.2.2.2.2.2
    subst ht
    simp only [hmk] at h
    unfold specThisYearBirthday
    cases hlt : dateLt (Date.mk today.year m d) today with
    | true =>
      rw [hlt] at h
      simp at h ⊢
      exact ((mkDate_ok_iff _ _ _ _).mp h).2.2.2.2.2.2
    | false =>
      rw [hlt] at h
      simp at h ⊢
      exact h.symm

theorem processRecord_name {today : Date} {days : Nat} {r : Record} {e : Entry}
    (h : processRecord today days r = Except.ok (some e)) : Entry.name e = Record.name r := by
  cases hb : r.birthday with
  | none => simp [processRecord, hb] at h
  | some bstr =>
    cases hst : strptimeDMY bstr with
    | none => simp [processRecord, hb, hst] at h
    | some dmy =>
      obtain ⟨d, m, y⟩ := dmy
      cases hc : thisYearCandidate today d m with
      | error err => simp [processRecord, hb, hst, hc] at h
      | ok bty =>
        simp only [processRecord, hb, hst, hc] at h
        split_ifs at h with hcond
        · injection h with h
          injection h with h
          rw [← h]
        · exact Option.noConfusion (Except.ok.inj h)

theorem processRecord_ok_some {today : Date} {days : Nat} {r : Record} {e : Entry}
    (h : processRecord today days r = Except.ok (some e)) :
    ∃ bstr d m y, Record.birthday r = some bstr ∧ strptimeDMY bstr = some (d, m, y) ∧
      specWindowCond today days d m ∧
      e = Entry.mk (Record.name r)
            (formatDate (weekendShift (specThisYearBirthday today d m))) := by
  cases hb : r.birthday with
  | none => simp [processRecord, hb] at h
  | some bstr =>
    cases hst : strptimeDMY bstr with
    | none => simp [processRecord, hb, hst] at h
    | some dmy =>
      obtain ⟨d, m, y⟩ := dmy
      cases hc : thisYearCandidate today d m with
      | error err => simp [processRecord, hb, hst, hc] at h
      | ok bty =>
        have hbty := thisYearCandidate_ok hc
        subst hbty
        simp only [processRecord, hb, hst, hc] at h
        split_ifs at h with hcond
        · injection h with h
          injection h with h
          exact ⟨bstr, d, m, y, rfl, hst, hcond, h.symm⟩
        · exact Option.noConfusion (Except.ok.inj h)

theorem processRecord_some_of {today : Date} {days : Nat} {r : Record} {bstr : String}
    {d m y : Nat} (hb : Record.birthday r = some bstr)
    (hst : strptimeDMY bstr = some (d, m, y))
    (hres : ∃ x, processRecord today days r = Except.ok x)
    (hcond : specWindowCond today days d m) :
    processRecord today days r
      = Except.ok (some (Entry.mk (Record.name r)
          (formatDate (weekendShift (specThisYearBirthday today d m))))) := by
  obtain ⟨x, hx⟩ := hres
  cases hc : thisYearCandidate today d m with
  | error err => simp [processRecord, hb, hst, hc] at hx
  | ok bty =>
    have hbty := thisYearCandidate_ok hc
    subst hbty
    have hcond2 : 0 ≤ dateSub (specThisYearBirthday today d m) today
        ∧ dateSub (specThisYearBirthday today d m) today ≤ (days : Int) := hcond
    simp only [processRecord, hb, hst, hc]
    rw [if_pos hcond2]

theorem getUpcoming_ok (book : Book) (today : Date) (days : Nat)
    (hres : ∀ r ∈ book, ∃ x, processRecord today days r = Except.ok x) :
    ∃ l, get_upcoming_birthdays book today days = Except.ok l := by
  induction book with
  | nil => exact ⟨[], rfl⟩
  | cons r rs ih =>
    obtain ⟨x, hx⟩ := hres r (List.mem_cons_self _ _)
    obtain ⟨l, hl⟩ := ih (fun r2 h2 => hres r2 (List.mem_cons_of_mem _ h2))
    cases x with
    | none => exact ⟨l, by simp only [get_upcoming_birthdays, hx, hl]⟩
    | some ent => exact ⟨ent :: l, by simp only [get_upcoming_birthdays, hx, hl]⟩

theorem mem_getUpcoming {book : Book} {today : Date} {days : Nat} {l : List Entry}
    (h : get_upcoming_birthdays book today days = Except.ok l) :
    ∀ e ∈ l, ∃ r ∈ book, processRecord today days r = Except.ok (some e) := by
  induction book generalizing l with
  | nil =>
    intro e he
    simp only [get_upcoming_birthdays] at h
    injection h with h
    subst h
    cases he
  | cons r rs ih =>
    intro e he
    simp only [get_upcoming_birthdays] at h
    cases hx : processRecord today days r with
    | error err => rw [hx] at h; exact Except.noConfusion h
    | ok oe =>
      simp only [hx] at h
      cases hrest : get_upcoming_birthdays rs today days with
      | error err => rw [hrest] at h; exact Except.noConfusion h
      | ok l2 =>
        simp only [hrest] at h
        cases oe with
        | none =>
          injection h with h
          subst h
          obtain ⟨r2, hr2, hpr2⟩ := ih hrest e he
          exact ⟨r2, List.mem_cons_of_mem _ hr2, hpr2⟩
        | some ent =>
          injection h with h
          subst h
          rcases List.mem_cons.mp he with rfl | he2
          · exact ⟨r, List.mem_cons_self _ _, hx⟩
          · obtain ⟨r2, hr2, hpr2⟩ := ih hrest e he2
            exact ⟨r2, List.mem_cons_of_mem _ hr2, hpr2⟩

theorem getUpcoming_mem {book : Book} {today : Date} {days : Nat} {l : List Entry}
    (h : get_upcoming_birthdays book today days = Except.ok l)
    {r : Record} (hr : r ∈ book) {e : Entry}
    (hpr : processRecord today days r = Except.ok (some e)) : e ∈ l := by
  induction book generalizing l with
  | nil => cases hr
  | cons r0 rs ih =>
    simp only [get_upcoming_birthdays] at h
    cases hx : processRecord today days r0 with
    | error err => rw [hx] at h; exact Except.noConfusion h
    | ok oe =>
      simp only [hx] at h
      cases hrest : get_upcoming_birthdays rs today days with
      | error err => rw [hrest] at h; exact Except.noConfusion h
      | ok l2 =>
        simp only [hrest] at h
        rcases List.mem_cons.mp hr with rfl | hr2
        · have hoe := hx.symm.trans hpr
          injection hoe with hoe
          subst hoe
          have h2 : e :: l2 = l := Except.ok.inj h
          rw [← h2]
          exact List.mem_cons_self _ _
        · cases oe with
          | none =>
            injection h with h
            subst h
            exact ih hrest hr2
          | some ent =>
            injection h with h
            subst h
            exact List.mem_cons_of_mem _ (ih hrest hr2)

theorem record_name_inj {book : Book} (hnd : (book.map Record.name).Nodup)
    {r r2 : Record} (hr : r ∈ book) (hr2 : r2 ∈ book)
    (hname : Record.name r = Record.name r2) : r = r2 :=
  List.inj_on_of_nodup_map hnd hr hr2 hname

theorem getUpcoming_names_sublist {book : Book} {today : Date} {days : Nat} {l : List Entry}
    (h : get_upcoming_birthdays book today days = Except.ok l) :
    List.Sublist (l.map Entry.name) (book.map Record.name) := by
  induction book generalizing l with
  | nil =>
    simp only [get_upcoming_birthdays] at h
    injection h with h
    subst h
    simp
  | cons r rs ih =>
    simp only [get_upcoming_birthdays] at h
    cases hx : processRecord today days r with
    | error err => rw [hx] at h; exact Except.noConfusion h
    | ok oe =>
      simp only [hx] at h
      cases hrest : get_upcoming_birthdays rs today days with
      | error err => rw [hrest] at h; exact Except.noConfusion h
      | ok l2 =>
        simp only [hrest] at h
        cases oe with
        | none =>
          injection h with h
          subst h
          exact List.Sublist.cons _ (ih hrest)
        | some ent =>
          injection h with h
          subst h
          have hname : Entry.name ent = Record.name r := processRecord_name hx
          simp only [List.map_cons, hname]
          exact List.Sublist.cons₂ _ (ih hrest)

/-! ## Claim C1: window membership (fails on Feb 29, amended) -/

/-- Claim C1 counterexample: with today = 2025-03-01 and records Alice
(birthday 02.03.2000, within the window) and Bob (birthday 29.02.2000),
the query raises from `date.replace` on Bob (2025 is not a leap year), so
Alice is not included even though her delta of 1 day lies inside the
window; the claim as stated is false for this directory state. -/
theorem claimC1_counterexample :
    ¬ claimC1Statement
        [Record.mk "Alice" [] (some "02.03.2000"), Record.mk "Bob" [] (some "29.02.2000")]
        (Date.mk 2025 3 1) 7 := by
  intro h
  have h1 := h (Record.mk "Alice" [] (some "02.03.2000"))
    (List.mem_cons_self _ _) "02.03.2000" rfl 2 3 2000 (by decide)
  have h2 := h1.mpr (by decide)
  obtain ⟨l, hl, -⟩ := h2
  rw [show get_upcoming_birthdays
      [Record.mk "Alice" [] (some "02.03.2000"), Record.mk "Bob" [] (some "29.02.2000")]
      (Date.mk 2025 3 1) 7 = Except.error "day is out of range for month" from rfl] at hl
  exact Except.noConfusion hl

/-- Claim C1 amended: provided every record's birthday resolves without a
date-construction error for this `today` (in particular no February 29
birthday whose target year is not a leap year) and the directory keys are
unique, the query succeeds and includes a record with a birthday set if and
only if `0 <= thisYearBirthday - today <= windowDays` with
`thisYearBirthday` as the claim defines it; records without a birthday are
never included (they produce no entry), and `windowDays` defaults to 7. -/
theorem getUpcoming_mem_iff_window (book : Book) (today : Date) (days : Nat)
    (hnd : (book.map Record.name).Nodup)
    (hres : ∀ r ∈ book, ∃ x, processRecord today days r = Except.ok x) :
    (∀ b t, get_upcoming_birthdays_default b t = get_upcoming_birthdays b t 7)
    ∧ ∃ l, get_upcoming_birthdays book today days = Except.ok l ∧
        (∀ r ∈ book, Record.birthday r = none →
          ¬ ∃ e ∈ l, Entry.name e = Record.name r)
        ∧ ∀ r ∈ book, ∀ bstr, Record.birthday r = some bstr →
          ∀ d m y, strptimeDMY bstr = some (d, m, y) →
            ((∃ e ∈ l, Entry.name e = Record.name r) ↔ specWindowCond today days d m) := by
  refine ⟨fun b t => rfl, ?_⟩
  obtain ⟨l, hl⟩ := getUpcoming_ok book today days hres
  refine ⟨l, hl, ?_, ?_⟩
  · rintro r hr hnone ⟨e, he, hname⟩
    obtain ⟨r2, hr2, hpr2⟩ := mem_getUpcoming hl e he
    have hn2 : Entry.name e = Record.name r2 := processRecord_name hpr2
    have hrr : r2 = r := record_name_inj hnd hr2 hr (by rw [← hn2, hname])
    subst hrr
    obtain ⟨bstr2, d2, m2, y2, hb2, -⟩ := processRecord_ok_some hpr2
    rw [hnone] at hb2
    exact Option.noConfusion hb2
  intro r hr bstr hb d m y hst
  constructor
  · rintro ⟨e, he, hname⟩
    obtain ⟨r2, hr2, hpr2⟩ := mem_getUpcoming hl e he
    have hn2 : Entry.name e = Record.name r2 := processRecord_name hpr2
    have hrr : r2 = r := record_name_inj hnd hr2 hr (by rw [← hn2, hname])
    subst hrr
    obtain ⟨bstr2, d2, m2, y2, hb2, hst2, hcond2, -⟩ := processRecord_ok_some hpr2
    rw [hb] at hb2
    injection hb2 with hb2
    subst hb2
    rw [hst] at hst2
    injection hst2 with hst2
    rw [Prod.mk.injEq, Prod.mk.injEq] at hst2
    obtain ⟨rfl, rfl, -⟩ := hst2
    exact hcond2
  · intro hcond
    have hpr := processRecord_some_of hb hst (hres r hr) hcond
    exact ⟨_, getUpcoming_mem hl hr hpr, rfl⟩

/-- Witness for the amended C1: the spec's Bob scenario (today 2024-06-10,
birthday 15.06.2020) resolves, and Bob is included exactly because his
delta of 5 days lies inside the window. -/
theorem getUpcoming_mem_iff_window_witness :
    (∀ b t, get_upcoming_birthdays_default b t = get_upcoming_birthdays b t 7)
    ∧ ∃ l, get_upcoming_birthdays [Record.mk "Bob" [] (some "15.06.2020")]
          (Date.mk 2024 6 10) 7 = Except.ok l ∧
        (∀ r ∈ [Record.mk "Bob" [] (some "15.06.2020")], Record.birthday r = none →
          ¬ ∃ e ∈ l, Entry.name e = Record.name r)
        ∧ ∀ r ∈ [Record.mk "Bob" [] (some "15.06.2020")],
          ∀ bstr, Record.birthday r = some bstr →
          ∀ d m y, strptimeDMY bstr = some (d, m, y) →
            ((∃ e ∈ l, Entry.name e = Record.name r) ↔
              specWindowCond (Date.mk 2024 6 10) 7 d m) :=
  getUpcoming_mem_iff_window [Record.mk "Bob" [] (some "15.06.2020")] (Date.mk 2024 6 10) 7
    (by decide)
    (by
      intro r hr
      rw [List.mem_singleton] at hr
      subst hr
      exact ⟨some (Entry.mk "Bob" "17.06.2024"), rfl⟩)

/-! ## Claim C2: the greeting date -/

/-- Claim C2: every emitted entry carries the record's name together with
its `thisYearBirthday` shifted by the weekend rule (Saturday +2 days,
Sunday +1 day, Monday = 0 weekday convention) formatted as DD.MM.YYYY;
in particular with today = 2024-06-10, Bob with birthday 15.06.2020 and
window 7 is reported with greeting date 17.06.2024. -/
theorem getUpcoming_greeting (book : Book) (today : Date) (days : Nat) (l : List Entry)
    (h : get_upcoming_birthdays book today days = Except.ok l) :
    (∀ e ∈ l, ∃ r ∈ book, ∃ bstr d m y,
        Record.birthday r = some bstr ∧ strptimeDMY bstr = some (d, m, y) ∧
        e = Entry.mk (Record.name r)
              (formatDate (weekendShift (specThisYearBirthday today d m))))
    ∧ get_upcoming_birthdays [Record.mk "Bob" [] (some "15.06.2020")] (Date.mk 2024 6 10) 7
        = Except.ok [Entry.mk "Bob" "17.06.2024"] := by
  refine ⟨?_, rfl⟩
  intro e he
  obtain ⟨r, hr, hpr⟩ := mem_getUpcoming h e he
  obtain ⟨bstr, d, m, y, hb, hst, -, hee⟩ := processRecord_ok_some hpr
  exact ⟨r, hr, bstr, d, m, y, hb, hst, hee⟩

/-- Witness for C2 applied at the Bob scenario. -/
theorem getUpcoming_greeting_witness :
    (∀ e ∈ [Entry.mk "Bob" "17.06.2024"],
      ∃ r ∈ [Record.mk "Bob" [] (some "15.06.2020")], ∃ bstr d m y,
        Record.birthday r = some bstr ∧ strptimeDMY bstr = some (d, m, y) ∧
        e = Entry.mk (Record.name r)
              (formatDate (weekendShift (specThisYearBirthday (Date.mk 2024 6 10) d m))))
    ∧ get_upcoming_birthdays [Record.mk "Bob" [] (some "15.06.2020")] (Date.mk 2024 6 10) 7
        = Except.ok [Entry.mk "Bob" "17.06.2024"] :=
  getUpcoming_greeting [Record.mk "Bob" [] (some "15.06.2020")] (Date.mk 2024 6 10) 7
    [Entry.mk "Bob" "17.06.2024"] rfl

/-! ## Claim C7: result ordering -/

/-- Claim C7: the entries appear in the same order as the underlying record
iteration — the emitted names form a sublist of the record names in book
order, never a date-sorted rearrangement; the concrete scenario shows Carol
(greeting 17.06.2024) emitted before Dave (greeting 12.06.2024) because
Carol was inserted first. -/
theorem getUpcoming_order (book : Book) (today : Date) (days : Nat) (l : List Entry)
    (h : get_upcoming_birthdays book today days = Except.ok l) :
    List.Sublist (l.map Entry.name) (book.map Record.name)
    ∧ get_upcoming_birthdays
        [Record.mk "Carol" [] (some "16.06.2000"), Record.mk "Dave" [] (some "12.06.2000")]
        (Date.mk 2024 6 10) 7
      = Except.ok [Entry.mk "Carol" "17.06.2024", Entry.mk "Dave" "12.06.2024"] :=
  ⟨getUpcoming_names_sublist h, rfl⟩

/-- Witness for C7 applied at the two-record scenario. -/
theorem getUpcoming_order_witness :
    List.Sublist
      (List.map Entry.name [Entry.mk "Carol" "17.06.2024", Entry.mk "Dave" "12.06.2024"])
      (List.map Record.name
        [Record.mk "Carol" [] (some "16.06.2000"), Record.mk "Dave" [] (some "12.06.2000")])
    ∧ get_upcoming_birthdays
        [Record.mk "Carol" [] (some "16.06.2000"), Record.mk "Dave" [] (some "12.06.2000")]
        (Date.mk 2024 6 10) 7
      = Except.ok [Entry.mk "Carol" "17.06.2024", Entry.mk "Dave" "12.06.2024"] :=
  getUpcoming_order
    [Record.mk "Carol" [] (some "16.06.2000"), Record.mk "Dave" [] (some "12.06.2000")]
    (Date.mk 2024 6 10) 7
    [Entry.mk "Carol" "17.06.2024", Entry.mk "Dave" "12.06.2024"] rfl

end Assistant
